import Mathlib

/-!
# KubeHealth: the crash-loop remediation loop of `main.go`

A shallow embedding of the pure core of `src/main.go`:

* `isCrashLoopBackOff` (main.go 50-57), the crash predicate;
* `podKey` (main.go 59-61), the dedup key;
* `deletePod` (main.go 63-65), the remediation request;
* `main_step` (main.go 131-172), one pass through the `evt` arm of the
  `for { select { ... } }` loop of `main`, with the `reported` map passed
  explicitly and the delete requests and printed lines returned as data;
* `main_run`, the loop iterated over a finite sequence of delivered events.

The Kubernetes API types are external to the repository; only the fields that
`main.go` reads are kept.
-/

namespace KubeHealth

/-! ## Data model (the parts of `k8s.io/api/core/v1` that the code reads) -/

/-- The `corev1.ContainerStateWaiting` record. -/
structure ContainerStateWaiting where
  Reason : String
  Message : String
  deriving DecidableEq, Repr

/-- The `corev1.ContainerState` record: `Waiting` is a pointer that may be nil;
the other two pointers are never dereferenced by the code, so only whether they
are set is kept. -/
structure ContainerState where
  Waiting : Option ContainerStateWaiting
  Running : Bool
  Terminated : Bool
  deriving DecidableEq, Repr

/-- The `corev1.ContainerStatus` record. -/
structure ContainerStatus where
  Name : String
  State : ContainerState
  deriving DecidableEq, Repr

/-- The `corev1.PodStatus` record. -/
structure PodStatus where
  ContainerStatuses : List ContainerStatus
  deriving DecidableEq, Repr

/-- The `corev1.Pod` record. -/
structure Pod where
  Namespace : String
  Name : String
  Status : PodStatus
  deriving DecidableEq, Repr

/-- The `watch.EventType` type is a Go string type. -/
abbrev EventType := String

/-- The constant `watch.Added`. -/
def Added : EventType := "ADDED"
/-- The constant `watch.Modified`. -/
def Modified : EventType := "MODIFIED"
/-- The constant `watch.Deleted`. -/
def Deleted : EventType := "DELETED"
/-- The constant `watch.Bookmark`. -/
def Bookmark : EventType := "BOOKMARK"
/-- The constant `watch.Error`. -/
def Error : EventType := "ERROR"

/-- The dynamic value of the `runtime.Object` interface carried by an event:
the nil interface, a `*corev1.Pod` (whose pointer may itself be nil), or a value
of some other type (for instance the `*metav1.Status` of an error event). -/
inductive Object where
  | nilObject
  | podPtr (p : Option Pod)
  | otherObject (typeName : String)
  deriving DecidableEq, Repr

/-- The `watch.Event` record (its field `Type` is written `Type_`). -/
structure Event where
  Type_ : EventType
  Object : Object
  deriving DecidableEq, Repr

/-! ## The `reported` map (`map[string]bool`) -/

/-- A Go `map[string]bool`: `none` is an absent key. -/
abbrev Reported := String → Option Bool

/-- The value `make(map[string]bool)`. -/
def Reported.empty : Reported := fun _ => none

/-- The read `reported[key]`: the zero value `false` for an absent key. -/
def Reported.lookup (reported : Reported) (key : String) : Bool :=
  match reported key with
  | some b => b
  | none => false

/-- The assignment `reported[key] = v`. -/
def Reported.set (reported : Reported) (key : String) (v : Bool) : Reported :=
  fun k => if k = key then some v else reported k

/-- The builtin `delete(reported, key)`. -/
def Reported.delete (reported : Reported) (key : String) : Reported :=
  fun k => if k = key then none else reported k

/-! ## The functions of `main.go` -/

/-- The condition of the `if` at main.go 52. -/
def waitingCrashLoop (cs : ContainerStatus) : Bool :=
  match cs.State.Waiting with
  | none => false
  | some w => decide (w.Reason = "CrashLoopBackOff")

/-- The `for ... range` loop of `isCrashLoopBackOff` (main.go 51-56) with its
early `return true`. -/
def isCrashLoopBackOff.loop : List ContainerStatus → Bool
  | [] => false
  | cs :: rest => if waitingCrashLoop cs then true else isCrashLoopBackOff.loop rest

/-- The function `isCrashLoopBackOff` (main.go 50-57). -/
def isCrashLoopBackOff (pod : Pod) : Bool :=
  isCrashLoopBackOff.loop pod.Status.ContainerStatuses

/-- The function `podKey` (main.go 59-61). -/
def podKey (p : Pod) : String :=
  p.Namespace ++ "/" ++ p.Name

/-- One request `Pods(ns).Delete(ctx, podName, ...)` sent to the cluster API. -/
structure DeleteRequest where
  Namespace : String
  Name : String
  deriving DecidableEq, Repr

/-- What the loop body reads from outside during one pass: the clock
(`time.Now().Format(time.RFC3339)`) and the answer of the cluster API to a
delete request (`none` is a nil error, `some msg` an error printing as `msg`). -/
structure World where
  now : String
  podsDelete : String → String → Option String

/-- The function `deletePod` (main.go 63-65): the request it sends and the error
it returns. -/
def deletePod (w : World) (ns podName : String) : DeleteRequest × Option String :=
  (⟨ns, podName⟩, w.podsDelete ns podName)

/-- The effect of one pass through the loop body: the map afterwards, the delete
requests sent and the lines printed. -/
structure Outcome where
  reported : Reported
  calls : List DeleteRequest
  out : List String

/-- The `evt` arm of the loop of `main` (main.go 137-171) for one delivered
event. -/
def main_step (w : World) (reported : Reported) (evt : Event) : Outcome :=
  match evt.Object with
  | Object.podPtr (some pod) =>
    if evt.Type_ = Deleted then
      ⟨reported.delete (pod.Namespace ++ "/" ++ pod.Name), [], []⟩
    else
      let key := pod.Namespace ++ "/" ++ pod.Name
      if isCrashLoopBackOff pod then
        if !reported.lookup key then
          let reported1 := reported.set key true
          let ts := w.now
          let reason := "CrashLoopBackOff"
          let line1 := ts ++ " restarted pod " ++ key ++ " due to " ++ reason ++ "\n"
          let r := deletePod w pod.Namespace pod.Name
          match r.2 with
          | some err =>
            ⟨reported1, [r.1], [line1, ts ++ " failed to delete pod " ++ key ++ ": " ++ err ++ "\n"]⟩
          | none =>
            ⟨reported1, [r.1], [line1, ts ++ " deleted pod " ++ key ++ "\n"]⟩
        else
          ⟨reported, [], []⟩
      else
        if reported.lookup key then
          ⟨reported.delete key, [], []⟩
        else
          ⟨reported, [], []⟩
  | _ => ⟨reported, [], []⟩

/-- One delivery on the watch channel together with what the outside world
answers while it is processed. -/
structure Delivery where
  world : World
  evt : Event

/-- The loop of `main` over a finite sequence of deliveries, in order. -/
def main_run (reported : Reported) : List Delivery → Outcome
  | [] => ⟨reported, [], []⟩
  | d :: rest =>
    let o := main_step d.world reported d.evt
    let o2 := main_run o.reported rest
    ⟨o2.reported, o.calls ++ o2.calls, o.out ++ o2.out⟩

/-! ## Vocabulary for the statements -/

/-- The key under which a delete request's target is tracked. -/
def DeleteRequest.key (c : DeleteRequest) : String :=
  c.Namespace ++ "/" ++ c.Name

/-- A key is marked when its entry reads `true`. -/
def Reported.marked (reported : Reported) (key : String) : Prop :=
  reported key = some true

instance (reported : Reported) (key : String) : Decidable (reported.marked key) :=
  inferInstanceAs (Decidable (reported key = some true))

/-- The pod carried by an event, when the type assertion of main.go 137-138
succeeds with a non-nil pointer. -/
def Event.pod? (evt : Event) : Option Pod :=
  match evt.Object with
  | Object.podPtr (some pod) => some pod
  | _ => none

/-- A world whose delete requests all succeed. -/
def okWorld : World := ⟨"t", fun _ _ => none⟩

/-- A world whose delete requests all fail. -/
def failWorld : World := ⟨"t", fun _ _ => some "boom"⟩

/-- A container status in the waiting state with the given reason. -/
def waitingStatus (reason : String) : ContainerStatus :=
  ⟨"c", ⟨some ⟨reason, ""⟩, false, false⟩⟩

/-- A container status in the running state. -/
def runningStatus : ContainerStatus :=
  ⟨"c", ⟨none, true, false⟩⟩

/-- A pod with one container waiting with reason `CrashLoopBackOff`. -/
def crashPod (ns name : String) : Pod :=
  ⟨ns, name, ⟨[waitingStatus "CrashLoopBackOff"]⟩⟩

/-- A pod with one running container. -/
def runningPod (ns name : String) : Pod :=
  ⟨ns, name, ⟨[runningStatus]⟩⟩

/-- An event of the given kind carrying the given pod. -/
def podEvent (ty : EventType) (pod : Pod) : Event :=
  ⟨ty, Object.podPtr (some pod)⟩

/-- The event carries a pod tracked under `key`. -/
def Event.hasKey (evt : Event) (key : String) : Bool :=
  match evt.pod? with
  | some pod => decide (podKey pod = key)
  | none => false

/-- The event is a crash detection for `key`: it is not a deletion and carries
a pod tracked under `key` whose snapshot is crash-looping. -/
def Event.crashFor (evt : Event) (key : String) : Bool :=
  match evt.pod? with
  | some pod => decide (podKey pod = key) && decide (evt.Type_ ≠ Deleted) && isCrashLoopBackOff pod
  | none => false

/-- The delete requests of a list whose target is tracked under `key`. -/
def callsFor (key : String) (calls : List DeleteRequest) : List DeleteRequest :=
  calls.filter (fun c => decide (c.key = key))

/-- The number of passes of a run at which `key` goes from unmarked to marked. -/
def markings (key : String) : Reported → List Delivery → Nat
  | _, [] => 0
  | reported, d :: rest =>
    (if ¬ reported.marked key ∧ (main_step d.world reported d.evt).reported.marked key
      then 1 else 0) +
      markings key (main_step d.world reported d.evt).reported rest

/-- No entry of the map holds the value `false`. -/
def Reported.NoFalse (reported : Reported) : Prop :=
  ∀ k, reported k ≠ some false

/-- The last event of the run that carries a pod tracked under `key` exists and
is a crash detection for `key`. -/
def LastIsCrash (key : String) (ds : List Delivery) : Prop :=
  ∃ before d after, ds = before ++ d :: after ∧ d.evt.crashFor key = true ∧
    ∀ d2 ∈ after, d2.evt.hasKey key = false

/-! ## The crash predicate -/

theorem waitingCrashLoop_iff (cs : ContainerStatus) :
    waitingCrashLoop cs = true ↔
      ∃ w, cs.State.Waiting = some w ∧ w.Reason = "CrashLoopBackOff" := by
  unfold waitingCrashLoop
  cases h : cs.State.Waiting with
  | none => simp
  | some w => simp

theorem isCrashLoopBackOff_loop_iff (l : List ContainerStatus) :
    isCrashLoopBackOff.loop l = true ↔ ∃ cs ∈ l, waitingCrashLoop cs = true := by
  induction l with
  | nil => simp [isCrashLoopBackOff.loop]
  | cons cs rest ih =>
    unfold isCrashLoopBackOff.loop
    by_cases h : waitingCrashLoop cs = true
    · simp [h]
    · simp [h, ih]

/-- C1: `isCrashLoopBackOff` is true exactly when some container status of the
pod has a non-nil `Waiting` whose `Reason` is the string `CrashLoopBackOff`; so
it is false without container statuses, false when every waiting reason differs
from the sentinel (for instance in case or by an extra character), and true as
soon as one status matches, whatever the statuses around it. -/
theorem isCrashLoopBackOff_spec :
    (∀ pod : Pod, isCrashLoopBackOff pod = true ↔
        ∃ cs ∈ pod.Status.ContainerStatuses, ∃ w,
          cs.State.Waiting = some w ∧ w.Reason = "CrashLoopBackOff") ∧
    (∀ ns name : String, isCrashLoopBackOff ⟨ns, name, ⟨[]⟩⟩ = false) ∧
    (∀ pod : Pod,
        (∀ cs ∈ pod.Status.ContainerStatuses, ∀ w,
          cs.State.Waiting = some w → w.Reason ≠ "CrashLoopBackOff") →
        isCrashLoopBackOff pod = false) ∧
    (∀ ns name : String,
        isCrashLoopBackOff ⟨ns, name, ⟨[waitingStatus "crashloopbackoff"]⟩⟩ = false ∧
        isCrashLoopBackOff ⟨ns, name, ⟨[waitingStatus "CrashLoopBackOff "]⟩⟩ = false ∧
        isCrashLoopBackOff ⟨ns, name, ⟨[waitingStatus "CrashLoopBackOffs"]⟩⟩ = false) ∧
    (∀ (ns name : String) (before after : List ContainerStatus) (cs : ContainerStatus)
        (w : ContainerStateWaiting),
        cs.State.Waiting = some w → w.Reason = "CrashLoopBackOff" →
        isCrashLoopBackOff ⟨ns, name, ⟨before ++ cs :: after⟩⟩ = true) := by
  have key : ∀ pod : Pod, isCrashLoopBackOff pod = true ↔
        ∃ cs ∈ pod.Status.ContainerStatuses, ∃ w,
          cs.State.Waiting = some w ∧ w.Reason = "CrashLoopBackOff" := by
    intro pod
    unfold isCrashLoopBackOff
    rw [isCrashLoopBackOff_loop_iff]
    constructor
    · rintro ⟨cs, hmem, hcs⟩
      exact ⟨cs, hmem, (waitingCrashLoop_iff cs).1 hcs⟩
    · rintro ⟨cs, hmem, hcs⟩
      exact ⟨cs, hmem, (waitingCrashLoop_iff cs).2 hcs⟩
  refine ⟨key, ?_, ?_, ?_, ?_⟩
  · intro ns name
    rfl
  · intro pod hall
    cases hb : isCrashLoopBackOff pod with
    | false => rfl
    | true =>
      obtain ⟨cs, hmem, w, hw, hr⟩ := (key pod).1 hb
      exact absurd hr (hall cs hmem w hw)
  · intro ns name
    refine ⟨?_, ?_, ?_⟩ <;>
      simp [isCrashLoopBackOff, isCrashLoopBackOff.loop, waitingCrashLoop, waitingStatus]
  · intro ns name before after cs w hw hr
    exact (key _).2 ⟨cs, by simp, w, hw, hr⟩

/-- Witness for C1: a pod with a running container, a container waiting with
the sentinel reason and a container waiting with another reason. -/
theorem isCrashLoopBackOff_spec_witness :
    isCrashLoopBackOff
      ⟨"ns", "a", ⟨[runningStatus] ++ waitingStatus "CrashLoopBackOff" ::
        [waitingStatus "ImagePullBackOff"]⟩⟩ = true :=
  isCrashLoopBackOff_spec.2.2.2.2 "ns" "a" [runningStatus] [waitingStatus "ImagePullBackOff"]
    (waitingStatus "CrashLoopBackOff") ⟨"CrashLoopBackOff", ""⟩ rfl rfl

/-! ## One pass through the loop body -/

theorem Reported.lookup_eq_true_iff (reported : Reported) (key : String) :
    reported.lookup key = true ↔ reported.marked key := by
  unfold Reported.lookup Reported.marked
  cases h : reported key with
  | none => simp
  | some b => simp

theorem Reported.lookup_eq_false_iff (reported : Reported) (key : String) :
    reported.lookup key = false ↔ ¬ reported.marked key := by
  rw [← Reported.lookup_eq_true_iff]
  simp

theorem main_step_no_pod (w : World) (reported : Reported) (evt : Event)
    (h : evt.pod? = none) : main_step w reported evt = ⟨reported, [], []⟩ := by
  obtain ⟨ty, obj⟩ := evt
  cases obj with
  | nilObject => rfl
  | otherObject t => rfl
  | podPtr p =>
    cases p with
    | none => rfl
    | some pod => simp [Event.pod?] at h

theorem main_step_deleted (w : World) (reported : Reported) (pod : Pod) :
    main_step w reported (podEvent Deleted pod) =
      ⟨reported.delete (podKey pod), [], []⟩ := by
  simp [main_step, podEvent, podKey]

theorem main_step_crash_unmarked (w : World) (reported : Reported) (ty : EventType)
    (pod : Pod) (hty : ty ≠ Deleted) (hcrash : isCrashLoopBackOff pod = true)
    (hun : ¬ reported.marked (podKey pod)) :
    (main_step w reported (podEvent ty pod)).reported = reported.set (podKey pod) true ∧
    (main_step w reported (podEvent ty pod)).calls = [⟨pod.Namespace, pod.Name⟩] := by
  have hl : reported.lookup (pod.Namespace ++ "/" ++ pod.Name) = false :=
    (Reported.lookup_eq_false_iff _ _).2 hun
  simp only [main_step, podEvent, podKey, if_neg hty, hcrash, hl, if_true, Bool.not_false,
    deletePod]
  cases w.podsDelete pod.Namespace pod.Name <;> exact ⟨rfl, rfl⟩

theorem main_step_crash_unmarked_out (w : World) (reported : Reported) (ty : EventType)
    (pod : Pod) (hty : ty ≠ Deleted) (hcrash : isCrashLoopBackOff pod = true)
    (hun : ¬ reported.marked (podKey pod)) :
    (main_step w reported (podEvent ty pod)).out =
      [w.now ++ " restarted pod " ++ podKey pod ++ " due to " ++ "CrashLoopBackOff" ++ "\n",
       match w.podsDelete pod.Namespace pod.Name with
       | some err => w.now ++ " failed to delete pod " ++ podKey pod ++ ": " ++ err ++ "\n"
       | none => w.now ++ " deleted pod " ++ podKey pod ++ "\n"] := by
  have hl : reported.lookup (pod.Namespace ++ "/" ++ pod.Name) = false :=
    (Reported.lookup_eq_false_iff _ _).2 hun
  simp only [main_step, podEvent, podKey, if_neg hty, hcrash, hl, if_true, Bool.not_false,
    deletePod]
  cases w.podsDelete pod.Namespace pod.Name <;> rfl

theorem main_step_crash_marked (w : World) (reported : Reported) (ty : EventType)
    (pod : Pod) (hty : ty ≠ Deleted) (hcrash : isCrashLoopBackOff pod = true)
    (hm : reported.marked (podKey pod)) :
    main_step w reported (podEvent ty pod) = ⟨reported, [], []⟩ := by
  have hl : reported.lookup (pod.Namespace ++ "/" ++ pod.Name) = true :=
    (Reported.lookup_eq_true_iff _ _).2 hm
  simp [main_step, podEvent, if_neg hty, hcrash, hl]

theorem main_step_healthy_marked (w : World) (reported : Reported) (ty : EventType)
    (pod : Pod) (hcrash : isCrashLoopBackOff pod = false)
    (hm : reported.marked (podKey pod)) :
    main_step w reported (podEvent ty pod) = ⟨reported.delete (podKey pod), [], []⟩ := by
  have hl : reported.lookup (pod.Namespace ++ "/" ++ pod.Name) = true :=
    (Reported.lookup_eq_true_iff _ _).2 hm
  simp [main_step, podEvent, podKey, hcrash, hl]

theorem main_step_healthy_unmarked (w : World) (reported : Reported) (ty : EventType)
    (pod : Pod) (hty : ty ≠ Deleted) (hcrash : isCrashLoopBackOff pod = false)
    (hun : ¬ reported.marked (podKey pod)) :
    main_step w reported (podEvent ty pod) = ⟨reported, [], []⟩ := by
  have hl : reported.lookup (pod.Namespace ++ "/" ++ pod.Name) = false :=
    (Reported.lookup_eq_false_iff _ _).2 hun
  simp [main_step, podEvent, if_neg hty, hcrash, hl]

theorem Event.eq_podEvent (evt : Event) (pod : Pod) (h : evt.pod? = some pod) :
    evt = podEvent evt.Type_ pod := by
  obtain ⟨ty, obj⟩ := evt
  cases obj with
  | nilObject => simp [Event.pod?] at h
  | otherObject t => simp [Event.pod?] at h
  | podPtr p =>
    cases p with
    | none => simp [Event.pod?] at h
    | some q =>
      simp only [Event.pod?, Option.some.injEq] at h
      subst h
      rfl

/-- Every delete request of a pass comes from a pod event that is not a
deletion and whose snapshot is crash-looping, and targets that pod. -/
theorem main_step_calls_origin (w : World) (reported : Reported) (evt : Event)
    (c : DeleteRequest) (hc : c ∈ (main_step w reported evt).calls) :
    ∃ pod, evt.pod? = some pod ∧ evt.Type_ ≠ Deleted ∧ isCrashLoopBackOff pod = true ∧
      ¬ reported.marked (podKey pod) ∧
      c = ⟨pod.Namespace, pod.Name⟩ ∧ (main_step w reported evt).calls = [c] := by
  cases hp : evt.pod? with
  | none => rw [main_step_no_pod w reported evt hp] at hc; simp at hc
  | some pod =>
    have he := Event.eq_podEvent evt pod hp
    rw [he] at hc
    by_cases hty : evt.Type_ = Deleted
    · rw [hty, main_step_deleted] at hc; simp at hc
    · cases hcr : isCrashLoopBackOff pod with
      | false =>
        by_cases hm : reported.marked (podKey pod)
        · rw [main_step_healthy_marked w reported _ pod hcr hm] at hc; simp at hc
        · rw [main_step_healthy_unmarked w reported _ pod hty hcr hm] at hc; simp at hc
      | true =>
        by_cases hm : reported.marked (podKey pod)
        · rw [main_step_crash_marked w reported _ pod hty hcr hm] at hc; simp at hc
        · have h2 := (main_step_crash_unmarked w reported _ pod hty hcr hm).2
          rw [h2] at hc
          simp only [List.mem_singleton] at hc
          refine ⟨pod, rfl, hty, hcr, hm, hc, ?_⟩
          rw [he, h2, hc]

/-- A pass changes no entry other than the one of the event's pod. -/
theorem main_step_other_key (w : World) (reported : Reported) (ty : EventType) (pod : Pod)
    (k : String) (hk : k ≠ podKey pod) :
    (main_step w reported (podEvent ty pod)).reported k = reported k := by
  by_cases hty : ty = Deleted
  · rw [hty, main_step_deleted]; simp [Reported.delete, hk]
  · cases hcr : isCrashLoopBackOff pod with
    | false =>
      by_cases hm : reported.marked (podKey pod)
      · rw [main_step_healthy_marked w reported _ pod hcr hm]; simp [Reported.delete, hk]
      · rw [main_step_healthy_unmarked w reported _ pod hty hcr hm]
    | true =>
      by_cases hm : reported.marked (podKey pod)
      · rw [main_step_crash_marked w reported _ pod hty hcr hm]
      · rw [(main_step_crash_unmarked w reported _ pod hty hcr hm).1]
        simp [Reported.set, hk]

/-! ## Runs -/

theorem main_run_nil (reported : Reported) :
    main_run reported [] = ⟨reported, [], []⟩ := rfl

theorem main_run_cons_reported (reported : Reported) (d : Delivery) (rest : List Delivery) :
    (main_run reported (d :: rest)).reported =
      (main_run (main_step d.world reported d.evt).reported rest).reported := rfl

theorem main_run_cons_calls (reported : Reported) (d : Delivery) (rest : List Delivery) :
    (main_run reported (d :: rest)).calls =
      (main_step d.world reported d.evt).calls ++
        (main_run (main_step d.world reported d.evt).reported rest).calls := rfl

theorem main_run_append_reported (reported : Reported) (a b : List Delivery) :
    (main_run reported (a ++ b)).reported =
      (main_run (main_run reported a).reported b).reported := by
  induction a generalizing reported with
  | nil => rfl
  | cons d rest ih =>
    simp only [List.cons_append, main_run_cons_reported]
    exact ih _

theorem main_run_append_calls (reported : Reported) (a b : List Delivery) :
    (main_run reported (a ++ b)).calls =
      (main_run reported a).calls ++ (main_run (main_run reported a).reported b).calls := by
  induction a generalizing reported with
  | nil => rfl
  | cons d rest ih =>
    simp only [List.cons_append, main_run_cons_calls, main_run_cons_reported, ih,
      List.append_assoc]

/-- Every delete request of a run comes from one of its deliveries: a pod event
that is not a deletion, whose snapshot is crash-looping, and whose pod is the
target. -/
theorem main_run_calls_origin (reported : Reported) (ds : List Delivery)
    (c : DeleteRequest) (hc : c ∈ (main_run reported ds).calls) :
    ∃ d ∈ ds, ∃ pod, d.evt.pod? = some pod ∧ d.evt.Type_ ≠ Deleted ∧
      isCrashLoopBackOff pod = true ∧ c = ⟨pod.Namespace, pod.Name⟩ := by
  induction ds generalizing reported with
  | nil => simp [main_run_nil] at hc
  | cons d rest ih =>
    rw [main_run_cons_calls, List.mem_append] at hc
    rcases hc with hc | hc
    · obtain ⟨pod, hp, hty, hcr, _, hceq, _⟩ := main_step_calls_origin _ _ _ _ hc
      exact ⟨d, by simp, pod, hp, hty, hcr, hceq⟩
    · obtain ⟨d2, hmem, h⟩ := ih _ hc
      exact ⟨d2, List.mem_cons_of_mem _ hmem, h⟩

/-! ## No remediation of healthy pods -/

/-- C3: every delete request issued by a pass, and so by a run from any map,
targets the namespace and name of the pod of an event being processed, and that
event is not a deletion and its snapshot is crash-looping; hence when every
snapshot seen for an instance during a run is not crash-looping, the run issues
no delete request for that instance. -/
theorem no_remediation_of_healthy :
    (∀ (w : World) (reported : Reported) (evt : Event) (c : DeleteRequest),
      c ∈ (main_step w reported evt).calls →
      ∃ pod, evt.Object = Object.podPtr (some pod) ∧ evt.Type_ ≠ Deleted ∧
        isCrashLoopBackOff pod = true ∧ c.Namespace = pod.Namespace ∧ c.Name = pod.Name) ∧
    (∀ (reported : Reported) (ds : List Delivery) (c : DeleteRequest),
      c ∈ (main_run reported ds).calls →
      ∃ d ∈ ds, ∃ pod, d.evt.Object = Object.podPtr (some pod) ∧ d.evt.Type_ ≠ Deleted ∧
        isCrashLoopBackOff pod = true ∧ c.Namespace = pod.Namespace ∧ c.Name = pod.Name) ∧
    (∀ (reported : Reported) (ds : List Delivery) (ns name : String),
      (∀ d ∈ ds, ∀ pod, d.evt.Object = Object.podPtr (some pod) →
        pod.Namespace = ns → pod.Name = name → isCrashLoopBackOff pod = false) →
      ∀ c ∈ (main_run reported ds).calls, ¬ (c.Namespace = ns ∧ c.Name = name)) := by
  have obj : ∀ (evt : Event) (pod : Pod), evt.pod? = some pod →
      evt.Object = Object.podPtr (some pod) := by
    intro evt pod h
    rw [Event.eq_podEvent evt pod h]
    rfl
  refine ⟨?_, ?_, ?_⟩
  · intro w reported evt c hc
    obtain ⟨pod, hp, hty, hcr, _, hceq, _⟩ := main_step_calls_origin w reported evt c hc
    exact ⟨pod, obj _ _ hp, hty, hcr, by rw [hceq], by rw [hceq]⟩
  · intro reported ds c hc
    obtain ⟨d, hmem, pod, hp, hty, hcr, hceq⟩ := main_run_calls_origin reported ds c hc
    exact ⟨d, hmem, pod, obj _ _ hp, hty, hcr, by rw [hceq], by rw [hceq]⟩
  · intro reported ds ns name hall c hc hI
    obtain ⟨d, hmem, pod, hp, _, hcr, hceq⟩ := main_run_calls_origin reported ds c hc
    have hns : pod.Namespace = ns := by rw [← hI.1, hceq]
    have hname : pod.Name = name := by rw [← hI.2, hceq]
    have := hall d hmem pod (obj _ _ hp) hns hname
    rw [hcr] at this
    exact Bool.noConfusion this

/-- Witness for C3: a run in which `ns/a` is only seen running while `ns/b`
crash-loops issues no delete request for `ns/a`. -/
theorem no_remediation_of_healthy_witness :
    ∀ c ∈ (main_run Reported.empty
        [⟨okWorld, podEvent Added (runningPod "ns" "a")⟩,
         ⟨okWorld, podEvent Added (crashPod "ns" "b")⟩,
         ⟨okWorld, podEvent Modified (runningPod "ns" "a")⟩]).calls,
      ¬ (c.Namespace = "ns" ∧ c.Name = "a") :=
  no_remediation_of_healthy.2.2 Reported.empty _ "ns" "a" (by
    intro d hd pod hp hns hname
    simp only [List.mem_cons, List.mem_singleton, List.not_mem_nil, or_false] at hd
    rcases hd with rfl | rfl | rfl
    · simp only [podEvent, Object.podPtr.injEq, Option.some.injEq] at hp
      subst hp
      decide
    · simp only [podEvent, Object.podPtr.injEq, Option.some.injEq] at hp
      subst hp
      exact absurd hname (by decide)
    · simp only [podEvent, Object.podPtr.injEq, Option.some.injEq] at hp
      subst hp
      decide)

/-! ## Opening an episode -/

/-- C4: from a map in which the key of the pod is not marked, a pass over an
event that is not a deletion and whose pod is crash-looping issues exactly one
delete request, for that pod's namespace and name, marks the key `true` and
leaves every other entry as it was. Scenario A: from the empty map,
`Added(ns/a, CrashLoopBackOff)` issues one delete request for `ns/a` and marks
`ns/a`. -/
theorem open_episode :
    (∀ (w : World) (reported : Reported) (ty : EventType) (pod : Pod),
      ¬ reported.marked (podKey pod) → ty ≠ Deleted → isCrashLoopBackOff pod = true →
      (main_step w reported (podEvent ty pod)).calls = [⟨pod.Namespace, pod.Name⟩] ∧
      (main_step w reported (podEvent ty pod)).reported (podKey pod) = some true ∧
      ∀ k, k ≠ podKey pod →
        (main_step w reported (podEvent ty pod)).reported k = reported k) ∧
    (∀ w : World,
      (main_run Reported.empty [⟨w, podEvent Added (crashPod "ns" "a")⟩]).calls =
        [⟨"ns", "a"⟩] ∧
      (main_run Reported.empty [⟨w, podEvent Added (crashPod "ns" "a")⟩]).reported "ns/a" =
        some true) := by
  have gen : ∀ (w : World) (reported : Reported) (ty : EventType) (pod : Pod),
      ¬ reported.marked (podKey pod) → ty ≠ Deleted → isCrashLoopBackOff pod = true →
      (main_step w reported (podEvent ty pod)).calls = [⟨pod.Namespace, pod.Name⟩] ∧
      (main_step w reported (podEvent ty pod)).reported (podKey pod) = some true ∧
      ∀ k, k ≠ podKey pod →
        (main_step w reported (podEvent ty pod)).reported k = reported k := by
    intro w reported ty pod hun hty hcr
    obtain ⟨h1, h2⟩ := main_step_crash_unmarked w reported ty pod hty hcr hun
    refine ⟨h2, ?_, fun k hk => main_step_other_key w reported ty pod k hk⟩
    rw [h1]
    simp [Reported.set]
  refine ⟨gen, ?_⟩
  intro w
  obtain ⟨h1, h2, _⟩ := gen w Reported.empty Added (crashPod "ns" "a")
    (by decide) (by decide) (by decide)
  constructor
  · simp only [main_run_cons_calls, main_run_nil, List.append_nil]
    exact h1
  · simp only [main_run_cons_reported, main_run_nil]
    exact h2

/-- Witness for C4: a `Modified` event for the crash-looping pod `ns/x` on the
empty map, with a failing delete. -/
theorem open_episode_witness :
    (main_step failWorld Reported.empty (podEvent Modified (crashPod "ns" "x"))).calls =
        [⟨"ns", "x"⟩] ∧
    (main_step failWorld Reported.empty (podEvent Modified (crashPod "ns" "x"))).reported
        (podKey (crashPod "ns" "x")) = some true ∧
    ∀ k, k ≠ podKey (crashPod "ns" "x") →
      (main_step failWorld Reported.empty (podEvent Modified (crashPod "ns" "x"))).reported k =
        Reported.empty k :=
  open_episode.1 failWorld Reported.empty Modified (crashPod "ns" "x")
    (by decide) (by decide) (by decide)

/-! ## A pass seen from one key -/

theorem callsFor_eq_nil_iff (key : String) (calls : List DeleteRequest) :
    callsFor key calls = [] ↔ ∀ c ∈ calls, c.key ≠ key := by
  induction calls with
  | nil => simp [callsFor]
  | cons c rest ih =>
    unfold callsFor at ih ⊢
    by_cases h : c.key = key
    · simp [List.filter_cons, h]
    · simp [List.filter_cons, h, ih]

theorem callsFor_append (key : String) (a b : List DeleteRequest) :
    callsFor key (a ++ b) = callsFor key a ++ callsFor key b := by
  simp [callsFor, List.filter_append]

theorem Event.hasKey_podEvent (ty : EventType) (pod : Pod) (key : String) :
    (podEvent ty pod).hasKey key = decide (podKey pod = key) := rfl

theorem Event.crashFor_podEvent (ty : EventType) (pod : Pod) (key : String) :
    (podEvent ty pod).crashFor key =
      (decide (podKey pod = key) && decide (ty ≠ Deleted) && isCrashLoopBackOff pod) := rfl

theorem Event.crashFor_hasKey (evt : Event) (key : String) (h : evt.crashFor key = true) :
    evt.hasKey key = true := by
  unfold Event.crashFor at h
  unfold Event.hasKey
  cases hp : evt.pod? with
  | none => rw [hp] at h; simp at h
  | some pod =>
    rw [hp] at h
    simp only [Bool.and_eq_true, decide_eq_true_eq] at h
    simpa using h.1.1

theorem Event.crashFor_iff (evt : Event) (key : String) :
    evt.crashFor key = true ↔
      ∃ pod, evt.pod? = some pod ∧ podKey pod = key ∧ evt.Type_ ≠ Deleted ∧
        isCrashLoopBackOff pod = true := by
  unfold Event.crashFor
  cases hp : evt.pod? with
  | none => simp
  | some pod => simp [and_assoc]

theorem Event.hasKey_iff (evt : Event) (key : String) :
    evt.hasKey key = true ↔ ∃ pod, evt.pod? = some pod ∧ podKey pod = key := by
  unfold Event.hasKey
  cases hp : evt.pod? with
  | none => simp
  | some pod => simp

/-- The requests of a pass are crash detections of keys that were not marked. -/
theorem main_step_calls_key (w : World) (reported : Reported) (evt : Event)
    (c : DeleteRequest) (hc : c ∈ (main_step w reported evt).calls) :
    evt.crashFor c.key = true ∧ ¬ reported.marked c.key := by
  obtain ⟨pod, hp, hty, hcr, hun, hceq, _⟩ := main_step_calls_origin w reported evt c hc
  have hk : c.key = podKey pod := by rw [hceq]; rfl
  rw [hk]
  exact ⟨(Event.crashFor_iff evt _).2 ⟨pod, hp, rfl, hty, hcr⟩, hun⟩

theorem main_step_not_hasKey (w : World) (reported : Reported) (evt : Event) (key : String)
    (h : evt.hasKey key = false) :
    (main_step w reported evt).reported key = reported key ∧
    callsFor key (main_step w reported evt).calls = [] := by
  constructor
  · cases hp : evt.pod? with
    | none => rw [main_step_no_pod w reported evt hp]
    | some pod =>
      have hne : key ≠ podKey pod := by
        intro hk
        have : evt.hasKey key = true := (Event.hasKey_iff evt key).2 ⟨pod, hp, hk.symm⟩
        rw [h] at this
        exact Bool.noConfusion this
      rw [Event.eq_podEvent evt pod hp]
      exact main_step_other_key w reported _ pod key hne
  · rw [callsFor_eq_nil_iff]
    intro c hc hk
    have := Event.crashFor_hasKey evt _ (main_step_calls_key w reported evt c hc).1
    rw [hk, h] at this
    exact Bool.noConfusion this

theorem main_step_crashFor_marked (w : World) (reported : Reported) (evt : Event)
    (key : String) (h : evt.crashFor key = true) (hm : reported.marked key) :
    main_step w reported evt = ⟨reported, [], []⟩ := by
  obtain ⟨pod, hp, hk, hty, hcr⟩ := (Event.crashFor_iff evt key).1 h
  rw [Event.eq_podEvent evt pod hp]
  exact main_step_crash_marked w reported _ pod hty hcr (hk ▸ hm)

theorem main_step_crashFor_unmarked (w : World) (reported : Reported) (evt : Event)
    (key : String) (h : evt.crashFor key = true) (hun : ¬ reported.marked key) :
    (main_step w reported evt).reported key = some true ∧
    ∃ pod, evt.pod? = some pod ∧ podKey pod = key ∧
      (main_step w reported evt).calls = [⟨pod.Namespace, pod.Name⟩] := by
  obtain ⟨pod, hp, hk, hty, hcr⟩ := (Event.crashFor_iff evt key).1 h
  have hun2 : ¬ reported.marked (podKey pod) := hk ▸ hun
  obtain ⟨h1, h2⟩ := main_step_crash_unmarked w reported evt.Type_ pod hty hcr hun2
  rw [← Event.eq_podEvent evt pod hp] at h1 h2
  refine ⟨?_, pod, hp, hk, h2⟩
  rw [h1, ← hk]
  simp [Reported.set]

theorem main_step_crashFor_reported (w : World) (reported : Reported) (evt : Event)
    (key : String) (h : evt.crashFor key = true) :
    (main_step w reported evt).reported key = some true := by
  by_cases hm : reported.marked key
  · rw [main_step_crashFor_marked w reported evt key h hm]
    exact hm
  · exact (main_step_crashFor_unmarked w reported evt key h hm).1

theorem main_step_hasKey_not_crash (w : World) (reported : Reported) (evt : Event)
    (key : String) (h1 : evt.hasKey key = true) (h2 : evt.crashFor key = false) :
    (main_step w reported evt).calls = [] ∧
    ¬ (main_step w reported evt).reported.marked key ∧
    (reported key ≠ some false → (main_step w reported evt).reported key = none) := by
  obtain ⟨pod, hp, hk⟩ := (Event.hasKey_iff evt key).1 h1
  have he := Event.eq_podEvent evt pod hp
  by_cases hty : evt.Type_ = Deleted
  · rw [he, hty, main_step_deleted, hk]
    simp [Reported.delete, Reported.marked]
  · have hcr : isCrashLoopBackOff pod = false := by
      cases hc : isCrashLoopBackOff pod with
      | false => rfl
      | true =>
        have := (Event.crashFor_iff evt key).2 ⟨pod, hp, hk, hty, hc⟩
        rw [h2] at this
        exact Bool.noConfusion this
    by_cases hm : reported.marked (podKey pod)
    · rw [he, main_step_healthy_marked w reported _ pod hcr hm, hk]
      simp [Reported.delete, Reported.marked]
    · rw [he, main_step_healthy_unmarked w reported _ pod hty hcr hm]
      rw [hk] at hm
      refine ⟨rfl, hm, ?_⟩
      intro hnf
      unfold Reported.marked at hm
      cases hv : reported key with
      | none => exact hv
      | some b =>
        cases b with
        | true => exact absurd hv hm
        | false => exact absurd hv hnf

theorem main_step_noFalse (w : World) (reported : Reported) (evt : Event)
    (h : reported.NoFalse) : (main_step w reported evt).reported.NoFalse := by
  intro k
  cases hk : evt.hasKey k with
  | false =>
    rw [(main_step_not_hasKey w reported evt k hk).1]
    exact h k
  | true =>
    cases hc : evt.crashFor k with
    | true => rw [main_step_crashFor_reported w reported evt k hc]; simp
    | false =>
      rw [(main_step_hasKey_not_crash w reported evt k hk hc).2.2 (h k)]
      simp

theorem main_run_noFalse (reported : Reported) (ds : List Delivery)
    (h : reported.NoFalse) : (main_run reported ds).reported.NoFalse := by
  induction ds generalizing reported with
  | nil => exact h
  | cons d rest ih =>
    rw [main_run_cons_reported]
    exact ih _ (main_step_noFalse d.world reported d.evt h)

/-- The number of requests of a pass for a key is one when the pass takes the
key from unmarked to marked, and zero otherwise. -/
theorem callsFor_length_step (w : World) (reported : Reported) (evt : Event) (key : String) :
    (callsFor key (main_step w reported evt).calls).length =
      if ¬ reported.marked key ∧ (main_step w reported evt).reported.marked key
        then 1 else 0 := by
  cases hk : evt.hasKey key with
  | false =>
    obtain ⟨h1, h2⟩ := main_step_not_hasKey w reported evt key hk
    have : ¬ (¬ reported.marked key ∧ (main_step w reported evt).reported.marked key) := by
      unfold Reported.marked
      rw [h1]
      exact fun h => h.1 h.2
    rw [h2, if_neg this]
    rfl
  | true =>
    cases hc : evt.crashFor key with
    | true =>
      by_cases hm : reported.marked key
      · rw [main_step_crashFor_marked w reported evt key hc hm]
        simp [callsFor, hm]
      · obtain ⟨h1, pod, _, hpk, h2⟩ := main_step_crashFor_unmarked w reported evt key hc hm
        have hmark : (main_step w reported evt).reported.marked key := h1
        rw [if_pos ⟨hm, hmark⟩, h2]
        have : (⟨pod.Namespace, pod.Name⟩ : DeleteRequest).key = key := hpk
        simp [callsFor, this]
    | false =>
      obtain ⟨h1, h2, _⟩ := main_step_hasKey_not_crash w reported evt key hk hc
      rw [h1, if_neg (fun h => h2 h.2)]
      rfl

theorem callsFor_length_run (reported : Reported) (ds : List Delivery) (key : String) :
    (callsFor key (main_run reported ds).calls).length = markings key reported ds := by
  induction ds generalizing reported with
  | nil => rfl
  | cons d rest ih =>
    rw [main_run_cons_calls, callsFor_append, List.length_append, ih,
      callsFor_length_step]
    rfl

/-- While a key stays marked, no request is issued for it. -/
theorem no_calls_while_marked (reported : Reported) (ds : List Delivery) (key : String)
    (h : ∀ before, before <+: ds → (main_run reported before).reported.marked key) :
    callsFor key (main_run reported ds).calls = [] := by
  induction ds generalizing reported with
  | nil => rfl
  | cons d rest ih =>
    have h0 : reported.marked key := h [] (List.nil_prefix)
    have hstep : callsFor key (main_step d.world reported d.evt).calls = [] := by
      rw [callsFor_eq_nil_iff]
      intro c hc hk
      exact (main_step_calls_key d.world reported d.evt c hc).2 (hk ▸ h0)
    rw [main_run_cons_calls, callsFor_append, hstep, List.nil_append]
    apply ih
    intro before hb
    have := h (d :: before) ((List.prefix_cons_inj d).2 hb)
    rwa [main_run_cons_reported] at this

/-- Without a crash detection for it, an unmarked key stays unmarked and no
request is issued for it. -/
theorem stays_unmarked (reported : Reported) (ds : List Delivery) (key : String)
    (hun : ¬ reported.marked key) (h : ∀ d ∈ ds, d.evt.crashFor key = false) :
    ¬ (main_run reported ds).reported.marked key ∧
    callsFor key (main_run reported ds).calls = [] := by
  induction ds generalizing reported with
  | nil => exact ⟨hun, rfl⟩
  | cons d rest ih =>
    have hd : d.evt.crashFor key = false := h d (by simp)
    have hstep : ¬ (main_step d.world reported d.evt).reported.marked key ∧
        callsFor key (main_step d.world reported d.evt).calls = [] := by
      cases hk : d.evt.hasKey key with
      | false =>
        obtain ⟨h1, h2⟩ := main_step_not_hasKey d.world reported d.evt key hk
        refine ⟨?_, h2⟩
        unfold Reported.marked
        rw [h1]
        exact hun
      | true =>
        obtain ⟨h1, h2, _⟩ := main_step_hasKey_not_crash d.world reported d.evt key hk hd
        refine ⟨h2, ?_⟩
        rw [h1]
        rfl
    obtain ⟨i1, i2⟩ := ih _ hstep.1 (fun d2 hd2 => h d2 (List.mem_cons_of_mem _ hd2))
    rw [main_run_cons_reported, main_run_cons_calls, callsFor_append, hstep.2, i2]
    exact ⟨i1, rfl⟩

/-! ## The outside world does not steer the map or the requests -/

theorem main_step_world_irrelevant (w1 w2 : World) (reported : Reported) (evt : Event) :
    (main_step w1 reported evt).reported = (main_step w2 reported evt).reported ∧
    (main_step w1 reported evt).calls = (main_step w2 reported evt).calls := by
  cases hp : evt.pod? with
  | none => rw [main_step_no_pod w1 reported evt hp, main_step_no_pod w2 reported evt hp]
            exact ⟨rfl, rfl⟩
  | some pod =>
    rw [Event.eq_podEvent evt pod hp]
    by_cases hty : evt.Type_ = Deleted
    · rw [hty, main_step_deleted, main_step_deleted]
      exact ⟨rfl, rfl⟩
    · cases hcr : isCrashLoopBackOff pod with
      | false =>
        by_cases hm : reported.marked (podKey pod)
        · rw [main_step_healthy_marked w1 reported _ pod hcr hm,
            main_step_healthy_marked w2 reported _ pod hcr hm]
          exact ⟨rfl, rfl⟩
        · rw [main_step_healthy_unmarked w1 reported _ pod hty hcr hm,
            main_step_healthy_unmarked w2 reported _ pod hty hcr hm]
          exact ⟨rfl, rfl⟩
      | true =>
        by_cases hm : reported.marked (podKey pod)
        · rw [main_step_crash_marked w1 reported _ pod hty hcr hm,
            main_step_crash_marked w2 reported _ pod hty hcr hm]
          exact ⟨rfl, rfl⟩
        · obtain ⟨a1, a2⟩ := main_step_crash_unmarked w1 reported _ pod hty hcr hm
          obtain ⟨b1, b2⟩ := main_step_crash_unmarked w2 reported _ pod hty hcr hm
          exact ⟨by rw [a1, b1], by rw [a2, b2]⟩

theorem main_run_world_irrelevant (reported : Reported) (ds1 ds2 : List Delivery)
    (h : ds1.map Delivery.evt = ds2.map Delivery.evt) :
    (main_run reported ds1).reported = (main_run reported ds2).reported ∧
    (main_run reported ds1).calls = (main_run reported ds2).calls := by
  induction ds1 generalizing reported ds2 with
  | nil =>
    cases ds2 with
    | nil => exact ⟨rfl, rfl⟩
    | cons d rest => simp at h
  | cons d1 rest1 ih =>
    cases ds2 with
    | nil => simp at h
    | cons d2 rest2 =>
      simp only [List.map_cons, List.cons.injEq] at h
      obtain ⟨he, hrest⟩ := h
      obtain ⟨s1, s2⟩ := main_step_world_irrelevant d1.world d2.world reported d1.evt
      simp only [main_run_cons_reported, main_run_cons_calls]
      rw [← he, s1, s2]
      obtain ⟨i1, i2⟩ := ih (main_step d2.world reported d1.evt).reported rest2 hrest
      exact ⟨i1, by rw [i2]⟩

/-- A run of crash detections for a marked key changes nothing and issues no
request. -/
theorem main_run_crash_marked (reported : Reported) (ds : List Delivery) (key : String)
    (hm : reported.marked key) (h : ∀ d ∈ ds, d.evt.crashFor key = true) :
    (main_run reported ds).reported = reported ∧ (main_run reported ds).calls = [] := by
  induction ds with
  | nil => exact ⟨rfl, rfl⟩
  | cons d rest ih =>
    have hd := main_step_crashFor_marked d.world reported d.evt key (h d (by simp)) hm
    obtain ⟨i1, i2⟩ := ih (fun d2 hd2 => h d2 (List.mem_cons_of_mem _ hd2))
    rw [main_run_cons_reported, main_run_cons_calls, hd]
    exact ⟨i1, by rw [i2]; rfl⟩

/-! ## At most one request per episode -/

/-- C2: in every stretch of a run from the empty map, the number of delete
requests for a key equals the number of passes at which the key goes from
unmarked to marked; so from a pass that marks the key up to the next such pass
exactly one request for the key is issued (none after the marking pass itself),
however many crash-looping events for the key arrive in between. A pass over a
crash-looping event that is not a deletion, for a key already marked, issues no
request and leaves the map as it was, and so does any run of such events.
Scenario B: `Added(ns/b, running)`, `Modified(ns/b, CrashLoopBackOff)`,
`Modified(ns/b, CrashLoopBackOff)` issues exactly one request. -/
theorem at_most_once :
    (∀ (before seg : List Delivery) (key : String),
      (callsFor key
        (main_run (main_run Reported.empty before).reported seg).calls).length =
        markings key (main_run Reported.empty before).reported seg) ∧
    (∀ (before : List Delivery) (d : Delivery) (seg : List Delivery) (key : String),
      ¬ (main_run Reported.empty before).reported.marked key →
      (main_step d.world (main_run Reported.empty before).reported d.evt).reported.marked key →
      markings key
        (main_step d.world (main_run Reported.empty before).reported d.evt).reported seg = 0 →
      (callsFor key
        (main_run (main_run Reported.empty before).reported (d :: seg)).calls).length = 1 ∧
      callsFor key
        (main_run (main_step d.world (main_run Reported.empty before).reported
          d.evt).reported seg).calls = []) ∧
    (∀ (w : World) (reported : Reported) (ty : EventType) (pod : Pod),
      ty ≠ Deleted → isCrashLoopBackOff pod = true → reported.marked (podKey pod) →
      (main_step w reported (podEvent ty pod)).calls = [] ∧
      (main_step w reported (podEvent ty pod)).reported = reported) ∧
    (∀ (reported : Reported) (key : String) (ds : List Delivery),
      reported.marked key → (∀ d ∈ ds, d.evt.crashFor key = true) →
      (main_run reported ds).calls = [] ∧ (main_run reported ds).reported = reported) ∧
    (∀ w1 w2 w3 : World,
      (main_run Reported.empty
        [⟨w1, podEvent Added (runningPod "ns" "b")⟩,
         ⟨w2, podEvent Modified (crashPod "ns" "b")⟩,
         ⟨w3, podEvent Modified (crashPod "ns" "b")⟩]).calls = [⟨"ns", "b"⟩]) := by
  refine ⟨?_, ?_, ?_, ?_, ?_⟩
  · intro before seg key
    exact callsFor_length_run _ seg key
  · intro before d seg key hun hmark hnone
    have hseg := callsFor_length_run
      (main_step d.world (main_run Reported.empty before).reported d.evt).reported seg key
    rw [hnone] at hseg
    constructor
    · have h := callsFor_length_run (main_run Reported.empty before).reported (d :: seg) key
      rw [h]
      show (if _ then 1 else 0) + markings key _ seg = 1
      rw [hnone, if_pos ⟨hun, hmark⟩]
    · exact List.length_eq_zero.1 hseg
  · intro w reported ty pod hty hcr hm
    rw [main_step_crash_marked w reported ty pod hty hcr hm]
    exact ⟨rfl, rfl⟩
  · intro reported key ds hm hall
    obtain ⟨h1, h2⟩ := main_run_crash_marked reported ds key hm hall
    exact ⟨h2, h1⟩
  · intro w1 w2 w3
    have h := (main_run_world_irrelevant Reported.empty
      [⟨w1, podEvent Added (runningPod "ns" "b")⟩,
       ⟨w2, podEvent Modified (crashPod "ns" "b")⟩,
       ⟨w3, podEvent Modified (crashPod "ns" "b")⟩]
      [⟨okWorld, podEvent Added (runningPod "ns" "b")⟩,
       ⟨okWorld, podEvent Modified (crashPod "ns" "b")⟩,
       ⟨okWorld, podEvent Modified (crashPod "ns" "b")⟩] rfl).2
    exact h.trans (by decide)

/-- Witness for C2: after `ns/b` has been marked, five more crash-looping
`Modified` events for it issue no request and leave the map as it was. -/
theorem at_most_once_witness :
    (main_run (main_run Reported.empty
        [⟨okWorld, podEvent Added (crashPod "ns" "b")⟩]).reported
      (List.replicate 5 ⟨failWorld, podEvent Modified (crashPod "ns" "b")⟩)).calls = [] ∧
    (main_run (main_run Reported.empty
        [⟨okWorld, podEvent Added (crashPod "ns" "b")⟩]).reported
      (List.replicate 5 ⟨failWorld, podEvent Modified (crashPod "ns" "b")⟩)).reported =
      (main_run Reported.empty [⟨okWorld, podEvent Added (crashPod "ns" "b")⟩]).reported :=
  at_most_once.2.2.2.1 _ "ns/b" _ (by decide) (by
    intro d hd
    rw [List.eq_of_mem_replicate hd]
    decide)

/-! ## A failed delete is not retried -/

/-- C5: the map and the delete requests of a pass do not depend on what the
delete request answers, which only selects the second printed line; so after a
crash-looping event for an unmarked key whose delete fails the key is marked,
and any run of crash-looping events for that key which follows issues no
request and leaves the map as it was. Scenario D: `Added(ns/d, CrashLoopBackOff)`
with a failing delete, then `Modified(ns/d, CrashLoopBackOff)`, issues exactly
one request. -/
theorem failed_delete_not_retried :
    (∀ (w1 w2 : World) (reported : Reported) (evt : Event),
      (main_step w1 reported evt).reported = (main_step w2 reported evt).reported ∧
      (main_step w1 reported evt).calls = (main_step w2 reported evt).calls) ∧
    (∀ (w : World) (reported : Reported) (ty : EventType) (pod : Pod),
      ty ≠ Deleted → isCrashLoopBackOff pod = true → ¬ reported.marked (podKey pod) →
      (main_step w reported (podEvent ty pod)).out =
        [w.now ++ " restarted pod " ++ podKey pod ++ " due to " ++ "CrashLoopBackOff" ++ "\n",
         match w.podsDelete pod.Namespace pod.Name with
         | some err => w.now ++ " failed to delete pod " ++ podKey pod ++ ": " ++ err ++ "\n"
         | none => w.now ++ " deleted pod " ++ podKey pod ++ "\n"]) ∧
    (∀ (w : World) (reported : Reported) (ty : EventType) (pod : Pod),
      ty ≠ Deleted → isCrashLoopBackOff pod = true → ¬ reported.marked (podKey pod) →
      w.podsDelete pod.Namespace pod.Name ≠ none →
      (main_step w reported (podEvent ty pod)).reported.marked (podKey pod) ∧
      ∀ ds : List Delivery, (∀ d ∈ ds, d.evt.crashFor (podKey pod) = true) →
        (main_run (main_step w reported (podEvent ty pod)).reported ds).calls = [] ∧
        (main_run (main_step w reported (podEvent ty pod)).reported ds).reported =
          (main_step w reported (podEvent ty pod)).reported) ∧
    (∀ w1 w2 : World, w1.podsDelete "ns" "d" ≠ none →
      (main_run Reported.empty
        [⟨w1, podEvent Added (crashPod "ns" "d")⟩,
         ⟨w2, podEvent Modified (crashPod "ns" "d")⟩]).calls = [⟨"ns", "d"⟩]) := by
  refine ⟨main_step_world_irrelevant, ?_, ?_, ?_⟩
  · intro w reported ty pod hty hcr hun
    exact main_step_crash_unmarked_out w reported ty pod hty hcr hun
  · intro w reported ty pod hty hcr hun _
    have hmark : (main_step w reported (podEvent ty pod)).reported.marked (podKey pod) := by
      rw [(main_step_crash_unmarked w reported ty pod hty hcr hun).1]
      simp [Reported.marked, Reported.set]
    refine ⟨hmark, ?_⟩
    intro ds hall
    obtain ⟨h1, h2⟩ := main_run_crash_marked _ ds (podKey pod) hmark hall
    exact ⟨h2, h1⟩
  · intro w1 w2 _
    have h := (main_run_world_irrelevant Reported.empty
      [⟨w1, podEvent Added (crashPod "ns" "d")⟩,
       ⟨w2, podEvent Modified (crashPod "ns" "d")⟩]
      [⟨failWorld, podEvent Added (crashPod "ns" "d")⟩,
       ⟨okWorld, podEvent Modified (crashPod "ns" "d")⟩] rfl).2
    exact h.trans (by decide)

/-- Witness for C5: the failing delete of `ns/d` followed by three crash-looping
`Modified` events for `ns/d`. -/
theorem failed_delete_not_retried_witness :
    (main_step failWorld Reported.empty
        (podEvent Added (crashPod "ns" "d"))).reported.marked (podKey (crashPod "ns" "d")) ∧
    ∀ ds : List Delivery, (∀ d ∈ ds, d.evt.crashFor (podKey (crashPod "ns" "d")) = true) →
      (main_run (main_step failWorld Reported.empty
        (podEvent Added (crashPod "ns" "d"))).reported ds).calls = [] ∧
      (main_run (main_step failWorld Reported.empty
        (podEvent Added (crashPod "ns" "d"))).reported ds).reported =
        (main_step failWorld Reported.empty (podEvent Added (crashPod "ns" "d"))).reported :=
  failed_delete_not_retried.2.2.1 failWorld Reported.empty Added (crashPod "ns" "d")
    (by decide) (by decide) (by decide) (by decide)

/-! ## Events that are ignored -/

/-- Counterexample to C8: a `Bookmark` event, whose kind is none of `Added`,
`Modified`, `Deleted`, carrying a crash-looping pod is not ignored: on the empty
map it issues a delete request for the pod and marks its key. -/
theorem bookmark_pod_not_ignored :
    Bookmark ≠ Added ∧ Bookmark ≠ Modified ∧ Bookmark ≠ Deleted ∧
    isCrashLoopBackOff (crashPod "ns" "a") = true ∧
    (main_step okWorld Reported.empty (podEvent Bookmark (crashPod "ns" "a"))).calls =
      [⟨"ns", "a"⟩] ∧
    Reported.empty "ns/a" = none ∧
    (main_step okWorld Reported.empty (podEvent Bookmark (crashPod "ns" "a"))).reported "ns/a" =
      some true := by
  decide

/-- C8 as amended: an event whose object is the nil interface, a value that is
not a pod, or a nil pod pointer is ignored whatever its kind: no delete request,
nothing printed, the map as it was. An event that carries a pod and whose kind
is not `Deleted`, be it `Added`, `Modified` or any other kind, is processed
exactly as the `Added` event carrying that pod. -/
theorem ignored_events :
    (∀ (w : World) (reported : Reported) (ty : EventType),
      main_step w reported ⟨ty, Object.nilObject⟩ = ⟨reported, [], []⟩ ∧
      main_step w reported ⟨ty, Object.podPtr none⟩ = ⟨reported, [], []⟩ ∧
      ∀ t : String, main_step w reported ⟨ty, Object.otherObject t⟩ = ⟨reported, [], []⟩) ∧
    (∀ (w : World) (reported : Reported) (ty : EventType) (pod : Pod),
      ty ≠ Deleted →
      main_step w reported (podEvent ty pod) = main_step w reported (podEvent Added pod)) := by
  constructor
  · intro w reported ty
    exact ⟨rfl, rfl, fun _ => rfl⟩
  · intro w reported ty pod hty
    have hA : Added ≠ Deleted := by decide
    simp only [main_step, podEvent, if_neg hty, if_neg hA]

/-- Witness for C8 as amended: a `Bookmark` event and an `Added` event carrying
the same crash-looping pod are processed alike. -/
theorem ignored_events_witness :
    main_step okWorld Reported.empty (podEvent Bookmark (crashPod "ns" "a")) =
      main_step okWorld Reported.empty (podEvent Added (crashPod "ns" "a")) :=
  ignored_events.2 okWorld Reported.empty Bookmark (crashPod "ns" "a") (by decide)

/-! ## Deletion clears state -/

/-- C6: a pass over a `Deleted` event for a pod issues no delete request, even
for a crash-looping snapshot, leaves the pod's key absent (changing nothing when
it was absent already) and leaves every other entry as it was; the next
crash-looping `Added` event that reuses the key then issues exactly one delete
request and marks the key, as it does on the empty map. Scenario C:
`Added(ns/c, CrashLoopBackOff)` then `Deleted(ns/c)` issues one request and
leaves no entry for `ns/c`. -/
theorem deletion_clears_state :
    (∀ (w : World) (reported : Reported) (pod : Pod),
      (main_step w reported (podEvent Deleted pod)).calls = [] ∧
      (main_step w reported (podEvent Deleted pod)).reported (podKey pod) = none ∧
      (∀ k, k ≠ podKey pod →
        (main_step w reported (podEvent Deleted pod)).reported k = reported k) ∧
      (reported (podKey pod) = none →
        (main_step w reported (podEvent Deleted pod)).reported = reported)) ∧
    (∀ (w : World) (reported : Reported) (pod : Pod) (mid : List Delivery)
        (w2 : World) (pod2 : Pod),
      (∀ d ∈ mid, d.evt.crashFor (podKey pod) = false) →
      podKey pod2 = podKey pod → isCrashLoopBackOff pod2 = true →
      (main_step w2 (main_run reported (⟨w, podEvent Deleted pod⟩ :: mid)).reported
        (podEvent Added pod2)).calls = [⟨pod2.Namespace, pod2.Name⟩] ∧
      (main_step w2 (main_run reported (⟨w, podEvent Deleted pod⟩ :: mid)).reported
        (podEvent Added pod2)).reported (podKey pod) = some true ∧
      (main_step w2 (main_run reported (⟨w, podEvent Deleted pod⟩ :: mid)).reported
        (podEvent Added pod2)).calls =
        (main_step w2 Reported.empty (podEvent Added pod2)).calls ∧
      (main_step w2 (main_run reported (⟨w, podEvent Deleted pod⟩ :: mid)).reported
        (podEvent Added pod2)).out =
        (main_step w2 Reported.empty (podEvent Added pod2)).out) ∧
    (∀ w1 w2 : World,
      (main_run Reported.empty
        [⟨w1, podEvent Added (crashPod "ns" "c")⟩,
         ⟨w2, podEvent Deleted (crashPod "ns" "c")⟩]).calls = [⟨"ns", "c"⟩] ∧
      (main_run Reported.empty
        [⟨w1, podEvent Added (crashPod "ns" "c")⟩,
         ⟨w2, podEvent Deleted (crashPod "ns" "c")⟩]).reported "ns/c" = none) := by
  have hA : Added ≠ Deleted := by decide
  refine ⟨?_, ?_, ?_⟩
  · intro w reported pod
    rw [main_step_deleted]
    refine ⟨rfl, by simp [Reported.delete], fun k hk => by simp [Reported.delete, hk], ?_⟩
    intro habs
    funext k
    by_cases hk : k = podKey pod
    · simp [Reported.delete, hk, habs]
    · simp [Reported.delete, hk]
  · intro w reported pod mid w2 pod2 hmid hkey hcr
    have hun0 : ¬ (main_step w reported (podEvent Deleted pod)).reported.marked (podKey pod) := by
      rw [main_step_deleted]
      simp [Reported.marked, Reported.delete]
    have hun : ¬ (main_run reported (⟨w, podEvent Deleted pod⟩ :: mid)).reported.marked
        (podKey pod2) := by
      rw [main_run_cons_reported, hkey]
      exact (stays_unmarked _ mid (podKey pod) hun0 hmid).1
    have hempty : ¬ Reported.empty.marked (podKey pod2) := by
      simp [Reported.marked, Reported.empty]
    obtain ⟨a1, a2⟩ := main_step_crash_unmarked w2 _ Added pod2 hA hcr hun
    obtain ⟨_, b2⟩ := main_step_crash_unmarked w2 _ Added pod2 hA hcr hempty
    refine ⟨a2, ?_, by rw [a2, b2], ?_⟩
    · rw [a1, hkey]
      simp [Reported.set]
    · rw [main_step_crash_unmarked_out w2 _ Added pod2 hA hcr hun,
        main_step_crash_unmarked_out w2 _ Added pod2 hA hcr hempty]
  · intro w1 w2
    obtain ⟨h1, h2⟩ := main_run_world_irrelevant Reported.empty
      [⟨w1, podEvent Added (crashPod "ns" "c")⟩,
       ⟨w2, podEvent Deleted (crashPod "ns" "c")⟩]
      [⟨okWorld, podEvent Added (crashPod "ns" "c")⟩,
       ⟨okWorld, podEvent Deleted (crashPod "ns" "c")⟩] rfl
    exact ⟨h2.trans (by decide), by rw [h1]; decide⟩

/-- Witness for C6: `ns/c` is marked, deleted, seen running, and added again
crash-looping; the last event issues one delete request, as on the empty map. -/
theorem deletion_clears_state_witness :
    (main_step okWorld
        (main_run (Reported.empty.set "ns/c" true)
          (⟨okWorld, podEvent Deleted (crashPod "ns" "c")⟩ ::
            [⟨okWorld, podEvent Added (runningPod "ns" "c")⟩])).reported
        (podEvent Added (crashPod "ns" "c"))).calls = [⟨"ns", "c"⟩] :=
  (deletion_clears_state.2.1 okWorld (Reported.empty.set "ns/c" true) (crashPod "ns" "c")
    [⟨okWorld, podEvent Added (runningPod "ns" "c")⟩] okWorld (crashPod "ns" "c")
    (by decide) (by decide) (by decide)).1

/-! ## Recovery re-arms detection -/

/-- C7: for a marked key, a pass over an event for it that is not a deletion and
whose snapshot is not crash-looping removes the key and issues no delete
request; after that, the next crash detection for the key (no other one lying
in between) issues exactly one delete request, for its pod, and as long as the
key stays marked afterwards no further request is issued for the key: over the
whole stretch there is exactly that one request for the key. -/
theorem recovery_rearms :
    (∀ (w : World) (reported : Reported) (ty : EventType) (pod : Pod),
      reported.marked (podKey pod) → ty ≠ Deleted → isCrashLoopBackOff pod = false →
      (main_step w reported (podEvent ty pod)).reported (podKey pod) = none ∧
      (main_step w reported (podEvent ty pod)).calls = []) ∧
    (∀ (reported : Reported) (w1 : World) (ty1 : EventType) (pod1 : Pod)
        (mid : List Delivery) (w2 : World) (ty2 : EventType) (pod2 : Pod)
        (more : List Delivery),
      reported.marked (podKey pod1) → ty1 ≠ Deleted → isCrashLoopBackOff pod1 = false →
      (∀ d ∈ mid, d.evt.crashFor (podKey pod1) = false) →
      podKey pod2 = podKey pod1 → ty2 ≠ Deleted → isCrashLoopBackOff pod2 = true →
      (∀ before, before <+: more →
        (main_run (main_run reported
          (⟨w1, podEvent ty1 pod1⟩ :: mid ++ [⟨w2, podEvent ty2 pod2⟩])).reported
          before).reported.marked (podKey pod1)) →
      (main_step w2 (main_run reported (⟨w1, podEvent ty1 pod1⟩ :: mid)).reported
        (podEvent ty2 pod2)).calls = [⟨pod2.Namespace, pod2.Name⟩] ∧
      callsFor (podKey pod1)
        (main_run (main_run reported
          (⟨w1, podEvent ty1 pod1⟩ :: mid ++ [⟨w2, podEvent ty2 pod2⟩])).reported
          more).calls = [] ∧
      callsFor (podKey pod1)
        (main_run reported
          ((⟨w1, podEvent ty1 pod1⟩ :: mid ++ [⟨w2, podEvent ty2 pod2⟩]) ++ more)).calls =
        [⟨pod2.Namespace, pod2.Name⟩]) := by
  constructor
  · intro w reported ty pod hm _ hcr
    rw [main_step_healthy_marked w reported ty pod hcr hm]
    exact ⟨by simp [Reported.delete], rfl⟩
  · intro reported w1 ty1 pod1 mid w2 ty2 pod2 more hm hty1 hcr1 hmid hkey hty2 hcr2 hmore
    have hstep1 := main_step_healthy_marked w1 reported ty1 pod1 hcr1 hm
    have hun1 : ¬ (main_step w1 reported (podEvent ty1 pod1)).reported.marked (podKey pod1) := by
      rw [hstep1]
      simp [Reported.marked, Reported.delete]
    obtain ⟨hun2, hc2⟩ := stays_unmarked _ mid (podKey pod1) hun1 hmid
    have hrun1 : (main_run reported (⟨w1, podEvent ty1 pod1⟩ :: mid)).reported =
        (main_run (main_step w1 reported (podEvent ty1 pod1)).reported mid).reported := rfl
    have hcalls1 : callsFor (podKey pod1)
        (main_run reported (⟨w1, podEvent ty1 pod1⟩ :: mid)).calls = [] := by
      rw [main_run_cons_calls, callsFor_append, hc2]
      show callsFor (podKey pod1) (main_step w1 reported (podEvent ty1 pod1)).calls ++ [] = []
      rw [hstep1]
      rfl
    have hun3 : ¬ (main_run reported (⟨w1, podEvent ty1 pod1⟩ :: mid)).reported.marked
        (podKey pod2) := by
      rw [hrun1, hkey]
      exact hun2
    have hcall := (main_step_crash_unmarked w2 _ ty2 pod2 hty2 hcr2 hun3).2
    have hnone := no_calls_while_marked _ more (podKey pod1) hmore
    refine ⟨hcall, hnone, ?_⟩
    rw [main_run_append_calls, callsFor_append, hnone, List.append_nil]
    have hsplit : (⟨w1, podEvent ty1 pod1⟩ :: mid ++ [⟨w2, podEvent ty2 pod2⟩] : List Delivery) =
        (⟨w1, podEvent ty1 pod1⟩ :: mid) ++ [⟨w2, podEvent ty2 pod2⟩] := rfl
    rw [hsplit, main_run_append_calls, callsFor_append, hcalls1, List.nil_append]
    simp only [main_run_cons_calls, main_run_nil, List.append_nil]
    rw [hcall]
    have hk : (⟨pod2.Namespace, pod2.Name⟩ : DeleteRequest).key = podKey pod1 := hkey
    simp [callsFor, hk]

/-- Witness for C7: `ns/r` is marked, is seen running, is deleted, crash-loops
again and keeps crash-looping; exactly one delete request follows. -/
theorem recovery_rearms_witness :
    callsFor (podKey (runningPod "ns" "r"))
      (main_run (Reported.empty.set "ns/r" true)
        ((⟨okWorld, podEvent Modified (runningPod "ns" "r")⟩ ::
            [⟨okWorld, podEvent Deleted (runningPod "ns" "r")⟩] ++
            [⟨okWorld, podEvent Added (crashPod "ns" "r")⟩]) ++
          [⟨okWorld, podEvent Modified (crashPod "ns" "r")⟩])).calls = [⟨"ns", "r"⟩] :=
  (recovery_rearms.2 (Reported.empty.set "ns/r" true) okWorld Modified (runningPod "ns" "r")
    [⟨okWorld, podEvent Deleted (runningPod "ns" "r")⟩] okWorld Added (crashPod "ns" "r")
    [⟨okWorld, podEvent Modified (crashPod "ns" "r")⟩]
    (by decide) (by decide) (by decide) (by decide) (by decide) (by decide) (by decide)
    (by
      intro before hb
      obtain ⟨t, ht⟩ := hb
      match before, ht with
      | [], _ => decide
      | b :: bs, ht =>
        simp only [List.cons_append, List.cons.injEq, List.append_eq_nil] at ht
        obtain ⟨rfl, rfl, _⟩ := ht
        decide)).2.2

/-! ## The invariant of the `reported` map -/

theorem lastIsCrash_cons (key : String) (d : Delivery) (rest : List Delivery) :
    LastIsCrash key (d :: rest) ↔
      (d.evt.crashFor key = true ∧ ∀ d2 ∈ rest, d2.evt.hasKey key = false) ∨
        LastIsCrash key rest := by
  constructor
  · rintro ⟨before, d1, after, heq, hc, hafter⟩
    cases before with
    | nil =>
      simp only [List.nil_append, List.cons.injEq] at heq
      obtain ⟨rfl, rfl⟩ := heq
      exact Or.inl ⟨hc, hafter⟩
    | cons x b =>
      simp only [List.cons_append, List.cons.injEq] at heq
      exact Or.inr ⟨b, d1, after, heq.2, hc, hafter⟩
  · rintro (⟨hc, hrest⟩ | ⟨before, d1, after, heq, hc, hafter⟩)
    · exact ⟨[], d, rest, rfl, hc, hrest⟩
    · exact ⟨d :: before, d1, after, by rw [heq]; rfl, hc, hafter⟩

theorem not_lastIsCrash_nil (key : String) : ¬ LastIsCrash key [] := by
  rintro ⟨before, d, after, heq, _, _⟩
  cases before <;> simp at heq

/-- From a map without `false` entries, a key is present after a run exactly
when the last event for it in the run is a crash detection, or when the run has
no event for it and it was present before. -/
theorem main_run_present_iff (reported : Reported) (hnf : reported.NoFalse)
    (ds : List Delivery) (key : String) :
    (main_run reported ds).reported key ≠ none ↔
      LastIsCrash key ds ∨ ((∀ d ∈ ds, d.evt.hasKey key = false) ∧ reported key ≠ none) := by
  induction ds generalizing reported with
  | nil =>
    have := not_lastIsCrash_nil key
    simp [main_run_nil, this]
  | cons d rest ih =>
    rw [main_run_cons_reported, ih _ (main_step_noFalse d.world reported d.evt hnf),
      lastIsCrash_cons, List.forall_mem_cons]
    cases hk : d.evt.hasKey key with
    | false =>
      have hc : d.evt.crashFor key = false := by
        cases h : d.evt.crashFor key with
        | false => rfl
        | true =>
          have := Event.crashFor_hasKey d.evt key h
          rw [hk] at this
          exact Bool.noConfusion this
      rw [(main_step_not_hasKey d.world reported d.evt key hk).1, hc]
      simp
    | true =>
      cases hc : d.evt.crashFor key with
      | true =>
        rw [main_step_crashFor_reported d.world reported d.evt key hc]
        simp
        tauto
      | false =>
        rw [(main_step_hasKey_not_crash d.world reported d.evt key hk hc).2.2 (hnf key)]
        simp

/-- C9: after any finite run from the empty map, no entry holds `false`, and a
key is present exactly when the run has an event carrying a pod with that key
and the last such event is not a deletion and has a crash-looping snapshot. -/
theorem reported_invariant (ds : List Delivery) (key : String) :
    ((main_run Reported.empty ds).reported key = none ∨
      (main_run Reported.empty ds).reported key = some true) ∧
    ((main_run Reported.empty ds).reported key ≠ none ↔
      ∃ before d after pod, ds = before ++ d :: after ∧
        d.evt.Object = Object.podPtr (some pod) ∧ podKey pod = key ∧
        (∀ d2 ∈ after, ∀ pod2, d2.evt.Object = Object.podPtr (some pod2) → podKey pod2 ≠ key) ∧
        d.evt.Type_ ≠ Deleted ∧ isCrashLoopBackOff pod = true) := by
  have hempty : Reported.empty.NoFalse := by
    intro k
    simp [Reported.empty]
  have obj : ∀ (evt : Event) (pod : Pod), evt.pod? = some pod ↔
      evt.Object = Object.podPtr (some pod) := by
    intro evt pod
    constructor
    · intro h
      rw [Event.eq_podEvent evt pod h]
      rfl
    · intro h
      simp [Event.pod?, h]
  have nokey : ∀ (evt : Event), evt.hasKey key = false ↔
      ∀ pod2, evt.Object = Object.podPtr (some pod2) → podKey pod2 ≠ key := by
    intro evt
    constructor
    · intro h pod2 ho hk2
      have := (Event.hasKey_iff evt key).2 ⟨pod2, (obj evt pod2).2 ho, hk2⟩
      rw [h] at this
      exact Bool.noConfusion this
    · intro h
      cases hh : evt.hasKey key with
      | false => rfl
      | true =>
        obtain ⟨pod2, hp, hk2⟩ := (Event.hasKey_iff evt key).1 hh
        exact absurd hk2 (h pod2 ((obj evt pod2).1 hp))
  constructor
  · have := main_run_noFalse Reported.empty ds hempty key
    cases hv : (main_run Reported.empty ds).reported key with
    | none => exact Or.inl rfl
    | some b =>
      cases b with
      | true => exact Or.inr rfl
      | false => exact absurd hv this
  · rw [main_run_present_iff Reported.empty hempty ds key]
    constructor
    · rintro (⟨before, d, after, heq, hc, hafter⟩ | ⟨_, h⟩)
      · obtain ⟨pod, hp, hk, hty, hcr⟩ := (Event.crashFor_iff d.evt key).1 hc
        exact ⟨before, d, after, pod, heq, (obj _ _).1 hp, hk,
          fun d2 hd2 => (nokey d2.evt).1 (hafter d2 hd2), hty, hcr⟩
      · exact absurd rfl h
    · rintro ⟨before, d, after, pod, heq, ho, hk, hafter, hty, hcr⟩
      exact Or.inl ⟨before, d, after, heq,
        (Event.crashFor_iff d.evt key).2 ⟨pod, (obj _ _).2 ho, hk, hty, hcr⟩,
        fun d2 hd2 => (nokey d2.evt).2 (hafter d2 hd2)⟩

/-! ## The key -/

theorem split_at_first {α : Type} (c : α) :
    ∀ (a a2 b b2 : List α), c ∉ a → c ∉ a2 → a ++ c :: b = a2 ++ c :: b2 → a = a2 ∧ b = b2
  | [], [], b, b2, _, _, h => by simpa using h
  | [], y :: a2, b, b2, _, h2, h => by
    simp only [List.nil_append, List.cons_append, List.cons.injEq] at h
    exact absurd (by simp [h.1]) h2
  | x :: a, [], b, b2, h1, _, h => by
    simp only [List.nil_append, List.cons_append, List.cons.injEq] at h
    exact absurd (by simp [h.1]) h1
  | x :: a, y :: a2, b, b2, h1, h2, h => by
    simp only [List.cons_append, List.cons.injEq] at h
    have h1b : c ∉ a := fun hc => h1 (List.mem_cons_of_mem _ hc)
    have h2b : c ∉ a2 := fun hc => h2 (List.mem_cons_of_mem _ hc)
    obtain ⟨i1, i2⟩ := split_at_first c a a2 b b2 h1b h2b h.2
    exact ⟨by rw [h.1, i1], i2⟩

theorem podKey_data (p : Pod) :
    (podKey p).data = p.Namespace.data ++ '/' :: p.Name.data := by
  simp [podKey, String.data_append]

/-- Counterexample to C10: the pods `a/b`/`c` and `a`/`b/c` differ in namespace
and in name and have the same key, so after the first has been reported the
second, crash-looping, shares its entry and gets no delete request. -/
theorem podKey_collision :
    podKey (crashPod "a/b" "c") = podKey (crashPod "a" "b/c") ∧
    (crashPod "a/b" "c").Namespace ≠ (crashPod "a" "b/c").Namespace ∧
    (crashPod "a/b" "c").Name ≠ (crashPod "a" "b/c").Name ∧
    (main_run Reported.empty
      [⟨okWorld, podEvent Added (crashPod "a/b" "c")⟩,
       ⟨okWorld, podEvent Added (crashPod "a" "b/c")⟩]).calls = [⟨"a/b", "c"⟩] := by
  decide

/-- C10 as amended: the key is `namespace + "/" + name`, the loop body touches
no entry of the map other than the one under that key, pods with the same
namespace and name have the same key, and for pods whose namespaces contain no
`/` (or whose names contain no `/`) the keys are equal exactly when the
namespaces are equal and the names are equal. -/
theorem podKey_identity :
    (∀ p : Pod, podKey p = p.Namespace ++ "/" ++ p.Name) ∧
    (∀ (w : World) (reported : Reported) (ty : EventType) (pod : Pod) (k : String),
      k ≠ podKey pod → (main_step w reported (podEvent ty pod)).reported k = reported k) ∧
    (∀ p q : Pod, p.Namespace = q.Namespace → p.Name = q.Name → podKey p = podKey q) ∧
    (∀ p q : Pod,
      ('/' ∉ p.Namespace.data ∧ '/' ∉ q.Namespace.data) ∨
        ('/' ∉ p.Name.data ∧ '/' ∉ q.Name.data) →
      (podKey p = podKey q ↔ p.Namespace = q.Namespace ∧ p.Name = q.Name)) := by
  refine ⟨fun _ => rfl, main_step_other_key, ?_, ?_⟩
  · intro p q h1 h2
    simp [podKey, h1, h2]
  · intro p q hslash
    constructor
    · intro h
      have hd : p.Namespace.data ++ '/' :: p.Name.data =
          q.Namespace.data ++ '/' :: q.Name.data := by
        rw [← podKey_data, ← podKey_data, h]
      rcases hslash with ⟨hp, hq⟩ | ⟨hp, hq⟩
      · obtain ⟨i1, i2⟩ := split_at_first '/' _ _ _ _ hp hq hd
        exact ⟨String.ext i1, String.ext i2⟩
      · have hr := congrArg List.reverse hd
        simp only [List.reverse_append, List.reverse_cons, List.append_assoc,
          List.singleton_append] at hr
        obtain ⟨i1, i2⟩ := split_at_first '/' _ _ _ _
          (by simpa using hp) (by simpa using hq) hr
        exact ⟨String.ext (List.reverse_injective i2), String.ext (List.reverse_injective i1)⟩
    · rintro ⟨h1, h2⟩
      simp [podKey, h1, h2]

/-- Witness for C10 as amended: two pods of namespace `ns` named `a` and `b`
have different keys. -/
theorem podKey_identity_witness :
    (podKey (crashPod "ns" "a") = podKey (runningPod "ns" "b") ↔
      (crashPod "ns" "a").Namespace = (runningPod "ns" "b").Namespace ∧
      (crashPod "ns" "a").Name = (runningPod "ns" "b").Name) :=
  podKey_identity.2.2.2 (crashPod "ns" "a") (runningPod "ns" "b")
    (Or.inl ⟨by decide, by decide⟩)

end KubeHealth
